import Mathlib

/-!
Verification of the faceclaimer image service.

We give a shallow embedding of the path-confinement resolver
(`checks.AbsPath` and its helpers, mirroring Go's `path/filepath`
lexical functions `Clean`, `Join`, `Abs` for the unix separator),
the identifier validator (`checks.IsValidObjectId`, mirroring the
driver's `ObjectIDFromHex`), the WebP store (`convert.SaveWebP`),
the upload and delete handlers (`routes.handleImageUpload`,
`routes.handleSingleDelete`, `routes.prepImageName`) and the
empty-directory pruning pass (`routes.cleanEmptyDirs`).

Byte strings are modelled as lists of characters (`Str`); the
filesystem is modelled once as a flat map from paths to entries
(for the store) and once as a rose tree (for the delete/prune
handlers, which recurse over directory listings).
-/

/-! ### Definitions: the embedded program -/

/-- Strings, modelled as lists of characters. -/
abbrev Str := List Char

/-- Embed a Lean string literal. -/
def str (s : String) : Str := s.data

/-- The path separator (unix). -/
def sep : Char := '/'

/-- Go `filepath.IsAbs` for unix: the path begins with the separator. -/
def isRooted (p : Str) : Bool :=
  match p with
  | [] => false
  | c :: _ => c == sep

/-- Split a path on separators; `acc` holds the current component reversed.
Mirrors the component scanning done by Go `filepath.Clean`. -/
def splitAux : Str → Str → List Str
  | [], acc => [acc.reverse]
  | c :: rest, acc =>
      if c == sep then acc.reverse :: splitAux rest []
      else splitAux rest (c :: acc)

/-- The `..` path component. -/
def dotdot : Str := ['.', '.']

/-- The components of a path, with empty components (from duplicated or
trailing separators) and `.` components dropped, as Go `filepath.Clean` does. -/
def goComps (p : Str) : List Str :=
  (splitAux p []).filter (fun c => decide (c ≠ [] ∧ c ≠ ['.']))

/-- One step of Go `filepath.Clean`'s component processing: `..` pops the
last kept component; in a rooted path a `..` at the root is dropped; in a
relative path a `..` that cannot pop is kept. -/
def cleanStep (rooted : Bool) (acc : List Str) (c : Str) : List Str :=
  if c = dotdot then
    if rooted then acc.dropLast
    else if acc = [] ∨ acc.getLast? = some dotdot then acc ++ [dotdot]
    else acc.dropLast
  else acc ++ [c]

/-- Join components with single separators. -/
def joinComps : List Str → Str
  | [] => []
  | [c] => c
  | c :: d :: rest => c ++ sep :: joinComps (d :: rest)

/-- Go `filepath.Clean` (unix): lexical normalization of a path. -/
def clean (p : Str) : Str :=
  let out := (goComps p).foldl (cleanStep (isRooted p)) []
  if isRooted p then sep :: joinComps out
  else if out = [] then ['.'] else joinComps out

/-- Go `filepath.Join` on two elements: empty elements are skipped and the
result is `Clean`ed; `Join("","")` is the empty string. -/
def goJoin (a b : Str) : Str :=
  if a = [] then (if b = [] then [] else clean b)
  else if b = [] then clean a
  else clean (a ++ sep :: b)

/-- Go `filepath.Abs` with the working directory passed explicitly:
an absolute path is `Clean`ed, a relative one is joined onto `cwd`. -/
def goAbs (cwd p : Str) : Str :=
  if isRooted p then clean p else goJoin cwd p

/-- The source's "ensure absBase ends with separator" adjustment
(`strings.HasSuffix` test followed by appending the separator). -/
def withSep (b : Str) : Str :=
  if b.getLast? = some sep then b else b ++ [sep]

/-- `checks.AbsPath`: combines `base` and `path`, canonicalizes both the
base and the joined location, and accepts only when the separator-suffixed
canonical base is a literal string prefix of the separator-suffixed
canonical joined path.  `none` models the confinement error return. -/
def AbsPath (cwd base path : Str) : Option Str :=
  let absBase := goAbs cwd base
  let fileLoc := goJoin base path
  let absP := goAbs cwd fileLoc
  if withSep absBase <+: absP ++ [sep] then some absP else none

/-- A path component is good when it is nonempty, not `.`, and separator-free. -/
def goodComp (c : Str) : Prop := c ≠ [] ∧ c ≠ ['.'] ∧ sep ∉ c

/-- Confinement in the sense of the source's check: the resolved path is the
canonical base itself, or extends the separator-suffixed canonical base. -/
def withinBase (b r : Str) : Prop := r = b ∨ withSep b <+: r

instance withinBaseDecidable (b r : Str) : Decidable (withinBase b r) :=
  inferInstanceAs (Decidable (r = b ∨ withSep b <+: r))

/-- A hexadecimal digit as accepted by Go `encoding/hex` (both cases). -/
def isHexDigit (c : Char) : Bool :=
  decide (('0' ≤ c ∧ c ≤ '9') ∨ ('a' ≤ c ∧ c ≤ 'f') ∨ ('A' ≤ c ∧ c ≤ 'F'))

/-- The value of one hexadecimal digit, as Go `encoding/hex` computes it. -/
def hexVal (c : Char) : Option Nat :=
  if '0' ≤ c ∧ c ≤ '9' then some (c.toNat - '0'.toNat)
  else if 'a' ≤ c ∧ c ≤ 'f' then some (c.toNat - 'a'.toNat + 10)
  else if 'A' ≤ c ∧ c ≤ 'F' then some (c.toNat - 'A'.toNat + 10)
  else none

/-- Go `encoding/hex.DecodeString`: decodes pairs of hexadecimal digits,
failing on an odd-length input or a non-hexadecimal character. -/
def hexDecode : Str → Option (List Nat)
  | [] => some []
  | [_] => none
  | a :: b :: rest =>
    match hexVal a, hexVal b, hexDecode rest with
    | some x, some y, some l => some ((16 * x + y) :: l)
    | _, _, _ => none

/-- `checks.IsValidObjectId`: the driver's `ObjectIDFromHex` succeeds, i.e.
the string has length exactly 24 and decodes as hexadecimal. -/
def IsValidObjectId (s : Str) : Bool :=
  decide (s.length = 24) && (hexDecode s).isSome

/-- A filesystem entry: a regular file with its bytes, or a directory. -/
inductive Entry where
  | file (bytes : List Nat)
  | dir
deriving DecidableEq

/-- The flat filesystem used by the store: a map from paths to entries. -/
def FS := Str → Option Entry

/-- Point update of the filesystem. -/
def fsSet (fs : FS) (p : Str) (e : Entry) : FS :=
  fun q => if q = p then some e else fs q

/-- `checks.PathExists`: `os.Stat` succeeds (file or directory). -/
def PathExists (fs : FS) (p : Str) : Bool := (fs p).isSome

/-- The empty filesystem. -/
def fsEmpty : FS := fun _ => none

/-- Go `filepath.Dir`: everything up to and including the final separator,
then `Clean`ed (so a separator-free path gives `.`). -/
def dirOf (p : Str) : Str :=
  clean ((p.reverse.dropWhile (fun c => decide (c ≠ sep))).reverse)

/-- The components of a path (empty components dropped), used to address
entries of the directory tree. -/
def pathComps (p : Str) : List Str :=
  (splitAux p []).filter (fun c => decide (c ≠ []))

/-- The chain of directories Go `os.MkdirAll` ensures for `p`: each
component-prefix of `p`, rendered back as a path. -/
def ancestors (p : Str) : List Str :=
  (List.range (pathComps p).length).map
    (fun i => (if isRooted p then [sep] else []) ++ joinComps ((pathComps p).take (i + 1)))

/-- Go `os.MkdirAll`: create each missing directory on the chain, failing
when an existing entry on it is a regular file. -/
def mkdirAll (fs : FS) (p : Str) : Option FS :=
  (ancestors p).foldlM
    (fun f a =>
      match f a with
      | some Entry.dir => some f
      | some (Entry.file _) => none
      | none => some (fsSet f a Entry.dir))
    fs

/-- Go `os.Create`: truncating create of an empty file; fails when the
path names an existing directory. -/
def createFile (fs : FS) (p : Str) : Option FS :=
  match fs p with
  | some Entry.dir => none
  | _ => some (fsSet fs p (Entry.file []))

inductive SaveErr where
  | alreadyExists
  | ioError
  | decodeError
  | encodeError
deriving DecidableEq

/-- `convert.SaveWebP`, with the external codec passed as the `decode` and
`encode` collaborators (both fallible, as in `image.Decode` and
`webp.Encode`).  The source's order of operations is kept: the
exists-check on `dest`, then `os.MkdirAll` on `dest`'s directory, then
`os.Create(dest)`, then the decode of the input bytes, and only then
`webp.Encode`, which writes the encoded bytes into the open file and can
itself fail.  The file made by `os.Create` is not removed on either the
decode or the encode failure path; on encode failure its contents are
whatever was written before the error — modelled as the empty file, the
state `os.Create` left (the program may equally leave a partial prefix;
either way the full encoded content is not there). -/
def SaveWebP (decode : List Nat → Option (List Nat))
    (encode : List Nat → Nat → Option (List Nat))
    (fs : FS) (data : List Nat) (dest : Str) (quality : Nat) : FS × Option SaveErr :=
  if PathExists fs dest then (fs, some SaveErr.alreadyExists)
  else
    match mkdirAll fs (dirOf dest) with
    | none => (fs, some SaveErr.ioError)
    | some fs1 =>
      match createFile fs1 dest with
      | none => (fs1, some SaveErr.ioError)
      | some fs2 =>
        match decode data with
        | none => (fs2, some SaveErr.decodeError)
        | some img =>
          match encode img quality with
          | none => (fs2, some SaveErr.encodeError)
          | some out => (fsSet fs2 dest (Entry.file out), none)

/-- Modelled from the spec: the external image codec collaborator (§6,
`Decode(bytes) (PixelBuffer, error)`), which decodes bytes that begin with
a recognized raster-image signature and fails on anything else.  The codec
itself is outside the repository; only its boundary behavior matters here. -/
def specDecode (bs : List Nat) : Option (List Nat) :=
  if bs.take 2 = [255, 216] then some (bs.drop 2) else none

/-- Modelled from the spec: the external encoder collaborator (§6,
`Encode(PixelBuffer, quality int) (bytes, error)`); this instance
succeeds on every pixel buffer. -/
def specEncode (img : List Nat) (quality : Nat) : Option (List Nat) :=
  some (quality :: img)

/-- An always-failing encoder instance, used to exercise the
`webp.Encode` error branch at a concrete input. -/
def specEncodeFail : List Nat → Nat → Option (List Nat) :=
  fun _ _ => none

/-- The parts of a parsed URL that `checks.IsValidURL` inspects. -/
structure UrlParts where
  scheme : Str
  host : Str

/-- `checks.IsValidURL` with Go's `url.Parse` passed as the abstract
`parse` collaborator: the URL must parse, have scheme exactly `http` or
`https`, and a non-empty host. -/
def IsValidURL (parse : Str → Option UrlParts) (s : Str) : Bool :=
  match parse s with
  | none => false
  | some u =>
    (decide (u.scheme = str "http") || decide (u.scheme = str "https"))
      && !(decide (u.host = []))

/-- Concrete parse collaborator for the C8 witness: recognizes only the
`ftp` example URL. -/
def parseFtpOnly : Str → Option UrlParts :=
  fun s => if s = str "ftp://example.com/x.jpg"
    then some ⟨str "ftp", str "example.com"⟩ else none

/-- Decimal rendering of a number, as Go `fmt.Sprint` renders the guild
and user identifiers. -/
def natToStr (n : Nat) : Str := Nat.toDigits 10 n

/-- The upload request body (`routes.UploadRequest`). -/
structure UploadRequest where
  guild : Nat
  user : Nat
  charID : Str
  imageURL : Str

/-- `routes.prepImageName` with the generated object id passed in as
`newId`: validates the character id, then joins the guild, the user, the
character id and `<newId>.webp` with `/`. -/
def prepImageName (newId : Str) (r : UploadRequest) : Option Str :=
  if IsValidObjectId r.charID = false then none
  else some (joinComps [natToStr r.guild, natToStr r.user, r.charID, newId ++ str ".webp"])

/-- Go `strings.Trim(s, "/")`: strip separators from both ends. -/
def trimSeps (s : Str) : Str :=
  ((s.dropWhile (fun c => decide (c = sep))).reverse.dropWhile
    (fun c => decide (c = sep))).reverse

inductive UploadOutcome where
  | invalidURL
  | downloadFailed
  | badCharID
  | saveFailed
  | created (url : Str)

/-- `routes.handleImageUpload`.  The HTTP client is the `fetch`
collaborator (`none` models a transport error, otherwise it yields a
status code and the body); the first component of the result records the
URLs actually fetched, so "no network call" is observable.  The source's
order is kept: URL validation, download, 100 MiB read cap, name
preparation, `SaveWebP` at quality 90, then the response URL. -/
def handleImageUpload (parse : Str → Option UrlParts)
    (fetch : Str → Option (Nat × List Nat))
    (decode : List Nat → Option (List Nat)) (encode : List Nat → Nat → Option (List Nat))
    (newId : Str) (fs : FS) (imagesDir baseURL : Str) (req : UploadRequest) :
    List Str × FS × UploadOutcome :=
  if IsValidURL parse req.imageURL = false then ([], fs, UploadOutcome.invalidURL)
  else
    match fetch req.imageURL with
    | none => ([req.imageURL], fs, UploadOutcome.downloadFailed)
    | some (status, body) =>
      if status ≠ 200 then ([req.imageURL], fs, UploadOutcome.downloadFailed)
      else
        let imageData := body.take (100 * 1024 * 1024)
        match prepImageName newId req with
        | none => ([req.imageURL], fs, UploadOutcome.badCharID)
        | some imageName =>
          let saveLoc := goJoin imagesDir imageName
          match SaveWebP decode encode fs imageData saveLoc 90 with
          | (fs1, some _) => ([req.imageURL], fs1, UploadOutcome.saveFailed)
          | (fs1, none) =>
            ([req.imageURL], fs1,
              UploadOutcome.created (joinComps [trimSeps baseURL, imageName]))

/-- A directory tree: a file, or a directory with named entries. -/
inductive Node where
  | file
  | dir (entries : List (Str × Node))

/-- `routes.cleanEmptyDirs`, acting on the entry list of a directory:
non-directory entries are kept; each directory entry is recursively
cleaned first, and then removed when it has become empty.  The base
directory is the list itself, so it is never removed. -/
def cleanEmptyDirs : List (Str × Node) → List (Str × Node)
  | [] => []
  | (n, Node.file) :: rest => (n, Node.file) :: cleanEmptyDirs rest
  | (n, Node.dir cs) :: rest =>
    let cs' := cleanEmptyDirs cs
    if cs'.isEmpty then cleanEmptyDirs rest
    else (n, Node.dir cs') :: cleanEmptyDirs rest

/-- The paths of all files below an entry list. -/
def filesOf : List (Str × Node) → List (List Str)
  | [] => []
  | (n, Node.file) :: rest => [n] :: filesOf rest
  | (n, Node.dir cs) :: rest => (filesOf cs).map (fun p => n :: p) ++ filesOf rest

/-- First entry with the given name (directory listings are name-keyed). -/
def findEntry : List (Str × Node) → Str → Option Node
  | [], _ => none
  | (m, c) :: rest, n => if m = n then some c else findEntry rest n

/-- Drop the entry with the given name. -/
def eraseEntry (cs : List (Str × Node)) (n : Str) : List (Str × Node) :=
  cs.filter (fun e => decide (e.1 ≠ n))

/-- Replace the named entry's node. -/
def replaceEntry (cs : List (Str × Node)) (n : Str) (c : Node) : List (Str × Node) :=
  cs.map (fun e => if e.1 = n then (e.1, c) else e)

/-- Look up the node addressed by a component path (`os.Stat`). -/
def lookupNode : Node → List Str → Option Node
  | t, [] => some t
  | Node.file, _ :: _ => none
  | Node.dir cs, n :: rest =>
    match findEntry cs n with
    | none => none
    | some c => lookupNode c rest

/-- Go `os.Remove`: removes a file or an *empty* directory; fails on a
missing entry, on a non-empty directory, and on the root itself. -/
def osRemove : Node → List Str → Option Node
  | _, [] => none
  | Node.file, _ :: _ => none
  | Node.dir cs, [n] =>
    match findEntry cs n with
    | none => none
    | some Node.file => some (Node.dir (eraseEntry cs n))
    | some (Node.dir ds) =>
      if ds.isEmpty then some (Node.dir (eraseEntry cs n)) else none
  | Node.dir cs, n :: rest@(_ :: _) =>
    match findEntry cs n with
    | none => none
    | some c => (osRemove c rest).map (fun c' => Node.dir (replaceEntry cs n c'))

/-- Run `cleanEmptyDirs` at the directory addressed by a component path
within the global tree; `none` models its directory-listing error. -/
def cleanAt : Node → List Str → Option Node
  | Node.dir cs, [] => some (Node.dir (cleanEmptyDirs cs))
  | Node.file, [] => none
  | Node.file, _ :: _ => none
  | Node.dir cs, n :: rest =>
    match findEntry cs n with
    | none => none
    | some c => (cleanAt c rest).map (fun c' => Node.dir (replaceEntry cs n c'))

/-- Go `strings.TrimPrefix(p, "/")`: drop one leading separator. -/
def trimLeadSep (p : Str) : Str :=
  match p with
  | c :: rest => if c = sep then rest else p
  | [] => []

inductive DelOutcome where
  | confinementError
  | notFound
  | removeFailed
  | ok

/-- `routes.handleSingleDelete`: trims the wildcard parameter's leading
slash, resolves it against the images directory with `checks.AbsPath`,
rejects on confinement failure, rejects when nothing exists at the
resolved path, calls `os.Remove`, and finally runs `cleanEmptyDirs` on
the images directory, whose failure is only logged.  The global tree `t`
is the filesystem root. -/
def handleSingleDelete (cwd : Str) (t : Node) (imagesDir rawParam : Str) :
    Node × DelOutcome :=
  let imagePath := trimLeadSep rawParam
  match AbsPath cwd imagesDir imagePath with
  | none => (t, DelOutcome.confinementError)
  | some loc =>
    if (lookupNode t (pathComps loc)).isSome = false then (t, DelOutcome.notFound)
    else
      match osRemove t (pathComps loc) with
      | none => (t, DelOutcome.removeFailed)
      | some t1 =>
        match cleanAt t1 (pathComps (goAbs cwd imagesDir)) with
        | none => (t1, DelOutcome.ok)
        | some t2 => (t2, DelOutcome.ok)

/-! ### Theorems -/

theorem getLast?_mem_of {α : Type} {l : List α} {a : α} (h : l.getLast? = some a) : a ∈ l := by
  rcases List.mem_getLast?_eq_getLast (h ▸ rfl : a ∈ l.getLast?) with ⟨hn, rfl⟩
  exact List.getLast_mem hn

theorem splitAux_append (q : Str) : ∀ (p acc : Str),
    splitAux (p ++ sep :: q) acc = splitAux p acc ++ splitAux q [] := by
  intro p
  induction p with
  | nil => intro acc; simp [splitAux]
  | cons c rest ih =>
    intro acc
    by_cases h : c = sep
    · subst h; simp [splitAux, ih]
    · simp [splitAux, h, ih]

theorem splitAux_noSep_mem : ∀ (p acc : Str), sep ∉ acc →
    ∀ c ∈ splitAux p acc, sep ∉ c := by
  intro p
  induction p with
  | nil =>
    intro acc hacc c hc
    simp [splitAux] at hc
    subst hc; simpa using hacc
  | cons ch rest ih =>
    intro acc hacc c hc
    unfold splitAux at hc
    by_cases h : ch = sep
    · subst h
      simp only [beq_self_eq_true, if_true] at hc
      rcases List.mem_cons.mp hc with rfl | hc
      · simpa using hacc
      · exact ih [] (by simp) c hc
    · rw [if_neg (by simpa using h)] at hc
      refine ih (ch :: acc) ?_ c hc
      intro hmem
      rcases List.mem_cons.mp hmem with he | hmem
      · exact h he.symm
      · exact hacc hmem

theorem goComps_good : ∀ p, ∀ c ∈ goComps p, goodComp c := by
  intro p c hc
  unfold goComps at hc
  rw [List.mem_filter] at hc
  obtain ⟨hmem, hcond⟩ := hc
  have hns := splitAux_noSep_mem p [] (by simp) c hmem
  rw [decide_eq_true_eq] at hcond
  exact ⟨hcond.1, hcond.2, hns⟩

theorem cleanStep_mem {r : Bool} {acc : List Str} {c d : Str}
    (h : d ∈ cleanStep r acc c) : d ∈ acc ∨ d = c ∨ d = dotdot := by
  unfold cleanStep at h
  split at h
  · split at h
    · exact Or.inl (List.IsPrefix.subset (List.dropLast_prefix acc) h)
    · split at h
      · rcases List.mem_append.mp h with h | h
        · exact Or.inl h
        · exact Or.inr (Or.inr (by simpa using h))
      · exact Or.inl (List.IsPrefix.subset (List.dropLast_prefix acc) h)
  · rcases List.mem_append.mp h with h | h
    · exact Or.inl h
    · exact Or.inr (Or.inl (by simpa using h))

theorem foldl_cleanStep_good (r : Bool) : ∀ (l acc : List Str),
    (∀ c ∈ l, goodComp c) → (∀ c ∈ acc, goodComp c) →
    ∀ c ∈ l.foldl (cleanStep r) acc, goodComp c := by
  intro l
  induction l with
  | nil => intro acc _ hacc c hc; exact hacc c hc
  | cons x rest ih =>
    intro acc hl hacc c hc
    simp only [List.foldl_cons] at hc
    refine ih (cleanStep r acc x) (fun c h => hl c (by simp [h])) ?_ c hc
    intro d hd
    rcases cleanStep_mem hd with h | h | h
    · exact hacc d h
    · exact h ▸ hl x (by simp)
    · subst h; exact ⟨by decide, by decide, by decide⟩

theorem foldl_cleanStep_true_no_dotdot : ∀ (l acc : List Str),
    (∀ c ∈ acc, c ≠ dotdot) →
    ∀ c ∈ l.foldl (cleanStep true) acc, c ≠ dotdot := by
  intro l
  induction l with
  | nil => intro acc hacc c hc; exact hacc c hc
  | cons x rest ih =>
    intro acc hacc c hc
    simp only [List.foldl_cons] at hc
    refine ih (cleanStep true acc x) ?_ c hc
    intro d hd
    unfold cleanStep at hd
    split at hd
    · simp only [if_pos rfl] at hd
      exact hacc d (List.IsPrefix.subset (List.dropLast_prefix acc) hd)
    · next hx =>
      rcases List.mem_append.mp hd with h | h
      · exact hacc d h
      · have : d = x := by simpa using h
        exact this ▸ hx

theorem joinComps_spec : ∀ (out : List Str), (∀ c ∈ out, goodComp c) →
    out ≠ [] → joinComps out ≠ [] ∧ (joinComps out).getLast? ≠ some sep := by
  intro out
  induction out with
  | nil => intro _ h; exact absurd rfl h
  | cons c rest ih =>
    intro hg _
    cases rest with
    | nil =>
      have hgc := hg c (by simp)
      refine ⟨by simpa [joinComps] using hgc.1, ?_⟩
      simp only [joinComps]
      intro hlast
      exact hgc.2.2 (getLast?_mem_of hlast)
    | cons d rest' =>
      obtain ⟨h1, h2⟩ := ih (fun c h => hg c (by simp [h])) (by simp)
      constructor
      · simp [joinComps]
      · rw [joinComps, List.getLast?_append_cons,
            show (sep :: joinComps (d :: rest') : Str)
              = [sep] ++ joinComps (d :: rest') from rfl,
            List.getLast?_append_of_ne_nil [sep] h1]
        exact h2

theorem clean_rooted {p : Str} (h : isRooted p = true) : isRooted (clean p) = true := by
  simp only [clean, h, if_true]
  rfl

theorem clean_eq_sep_of_getLast {p : Str} (h : (clean p).getLast? = some sep) :
    clean p = [sep] := by
  have hgood : ∀ c ∈ (goComps p).foldl (cleanStep (isRooted p)) [], goodComp c :=
    foldl_cleanStep_good _ _ [] (goComps_good p) (by simp)
  by_cases hr : isRooted p = true
  · simp only [clean, hr, if_true] at h ⊢
    by_cases ho : (goComps p).foldl (cleanStep true) [] = []
    · rw [ho]; rfl
    · exfalso
      obtain ⟨h1, h2⟩ := joinComps_spec _ (by simpa [hr] using hgood) ho
      rw [hr] at hgood
      rw [show (sep :: joinComps ((goComps p).foldl (cleanStep true) []) : Str)
            = [sep] ++ joinComps ((goComps p).foldl (cleanStep true) []) from rfl,
          List.getLast?_append_of_ne_nil [sep] h1] at h
      exact h2 h
  · exfalso
    rw [Bool.not_eq_true] at hr
    simp only [clean, hr, if_false, Bool.false_eq_true] at h
    by_cases ho : (goComps p).foldl (cleanStep false) [] = []
    · rw [if_pos ho] at h
      simp at h
      exact absurd h (by decide)
    · rw [if_neg ho] at h
      obtain ⟨_, h2⟩ := joinComps_spec _ (by simpa [hr] using hgood) ho
      exact h2 h

theorem goJoin_rooted {a : Str} (b : Str) (h : isRooted a = true) :
    isRooted (goJoin a b) = true := by
  have ha : a ≠ [] := by intro e; rw [e] at h; exact absurd h (by decide)
  unfold goJoin
  rw [if_neg ha]
  by_cases hb : b = []
  · rw [if_pos hb]; exact clean_rooted h
  · rw [if_neg hb]
    refine clean_rooted ?_
    cases a with
    | nil => exact absurd rfl ha
    | cons c t => simpa [isRooted] using h

theorem goAbs_rooted {cwd : Str} (p : Str) (h : isRooted cwd = true) :
    isRooted (goAbs cwd p) = true := by
  unfold goAbs
  split
  · exact clean_rooted ‹_›
  · exact goJoin_rooted p h

theorem goJoin_getLast_sep {a b : Str} (ha : a ≠ [])
    (h : (goJoin a b).getLast? = some sep) : goJoin a b = [sep] := by
  unfold goJoin at h ⊢
  rw [if_neg ha] at h ⊢
  by_cases hb : b = []
  · rw [if_pos hb] at h ⊢; exact clean_eq_sep_of_getLast h
  · rw [if_neg hb] at h ⊢; exact clean_eq_sep_of_getLast h

theorem goAbs_getLast_sep {cwd p : Str} (hc : isRooted cwd = true)
    (h : (goAbs cwd p).getLast? = some sep) : goAbs cwd p = [sep] := by
  have hcne : cwd ≠ [] := by intro e; rw [e] at hc; exact absurd hc (by decide)
  unfold goAbs at h ⊢
  by_cases hp : isRooted p = true
  · rw [if_pos hp] at h ⊢; exact clean_eq_sep_of_getLast h
  · rw [if_neg hp] at h ⊢; exact goJoin_getLast_sep hcne h

theorem goAbs_of_rooted {p : Str} (cwd : Str) (h : isRooted p = true) :
    goAbs cwd p = clean p := by
  unfold goAbs; rw [if_pos h]

theorem prefix_snoc {α : Type} {b a : List α} {x : α}
    (h : b <+: a ++ [x]) : b <+: a ∨ b = a ++ [x] := by
  obtain ⟨t, ht⟩ := h
  rcases List.eq_nil_or_concat t with rfl | ⟨t', c, rfl⟩
  · right; simpa using ht
  · left
    rw [List.concat_eq_append, ← List.append_assoc] at ht
    have := List.append_inj' ht rfl
    exact ⟨t', this.1⟩

theorem withinBase_isPrefix {b r : Str} (h : withinBase b r) : b <+: r := by
  rcases h with rfl | h
  · exact List.prefix_refl r
  · refine List.IsPrefix.trans ?_ h
    unfold withSep
    split
    · exact List.prefix_refl b
    · exact List.prefix_append b [sep]

theorem AbsPath_some_spec {cwd base path r : Str} (hc : isRooted cwd = true)
    (h : AbsPath cwd base path = some r) :
    isRooted r = true ∧ r = goAbs cwd (goJoin base path) ∧
      withinBase (goAbs cwd base) r := by
  simp only [AbsPath] at h
  split at h
  case isTrue hpre =>
    obtain rfl : goAbs cwd (goJoin base path) = r := Option.some_inj.mp h
    refine ⟨goAbs_rooted _ hc, rfl, ?_⟩
    rcases prefix_snoc hpre with hp | hp
    · exact Or.inr hp
    · unfold withSep at hp
      split at hp
      · next hb =>
        have hbs := goAbs_getLast_sep hc hb
        rw [hbs] at hp
        have ha : goAbs cwd (goJoin base path) = [] := by
          have := List.append_inj'
            (show ([] : Str) ++ [sep] = goAbs cwd (goJoin base path) ++ [sep] by simpa using hp)
            rfl
          exact this.1.symm
        have hro : isRooted (goAbs cwd (goJoin base path)) = true :=
          goAbs_rooted (goJoin base path) hc
        rw [ha] at hro
        exact absurd hro (by decide)
      · have : goAbs cwd base = goAbs cwd (goJoin base path) := (List.append_inj' hp rfl).1
        exact Or.inl this.symm
  case isFalse => exact absurd h (by simp)

theorem AbsPath_not_within {cwd base path : Str} (hc : isRooted cwd = true)
    (h : ¬ withinBase (goAbs cwd base) (goAbs cwd (goJoin base path))) :
    AbsPath cwd base path = none := by
  cases he : AbsPath cwd base path with
  | none => rfl
  | some r =>
    obtain ⟨_, hj, hw⟩ := AbsPath_some_spec hc he
    subst hj
    exact absurd hw h

theorem splitAux_of_noSep : ∀ (c acc : Str), sep ∉ c →
    splitAux c acc = [acc.reverse ++ c] := by
  intro c
  induction c with
  | nil => intro acc _; simp [splitAux]
  | cons x rest ih =>
    intro acc hx
    have hxs : ¬ x = sep := fun e => hx (by simp [e])
    unfold splitAux
    rw [if_neg (by simpa using hxs)]
    rw [ih (x :: acc) (fun hr => hx (by simp [hr]))]
    simp

theorem goComps_sep_cons (q : Str) : goComps (sep :: q) = goComps q := by
  unfold goComps
  conv_lhs => rw [splitAux]
  simp

theorem goComps_append (p q : Str) :
    goComps (p ++ sep :: q) = goComps p ++ goComps q := by
  unfold goComps
  rw [splitAux_append, List.filter_append]

theorem goComps_single {c : Str} (hc : goodComp c) : goComps c = [c] := by
  unfold goComps
  rw [splitAux_of_noSep c [] hc.2.2]
  simp [hc.1, hc.2.1]

theorem goComps_joinComps : ∀ (out : List Str), (∀ c ∈ out, goodComp c) →
    goComps (joinComps out) = out := by
  intro out
  induction out with
  | nil => intro _; decide
  | cons c rest ih =>
    intro hg
    cases rest with
    | nil => exact goComps_single (hg c (by simp))
    | cons d rest' =>
      rw [joinComps, goComps_append, goComps_single (hg c (by simp)),
        ih (fun c h => hg c (by simp [h]))]
      rfl

theorem foldl_cleanStep_of_no_dotdot (r : Bool) : ∀ (l acc : List Str),
    (∀ c ∈ l, c ≠ dotdot) → l.foldl (cleanStep r) acc = acc ++ l := by
  intro l
  induction l with
  | nil => intro acc _; simp
  | cons c rest ih =>
    intro acc hl
    simp only [List.foldl_cons]
    have hstep : cleanStep r acc c = acc ++ [c] := by
      unfold cleanStep; rw [if_neg (hl c (by simp))]
    rw [hstep, ih _ (fun d hd => hl d (by simp [hd]))]
    simp

theorem clean_idem_of_rooted {p : Str} (h : isRooted p = true) :
    clean (clean p) = clean p := by
  have hgood : ∀ c ∈ (goComps p).foldl (cleanStep true) [], goodComp c :=
    foldl_cleanStep_good true _ [] (goComps_good p) (by simp)
  have hnd : ∀ c ∈ (goComps p).foldl (cleanStep true) [], c ≠ dotdot :=
    foldl_cleanStep_true_no_dotdot _ [] (by simp)
  have hcp : clean p = sep :: joinComps ((goComps p).foldl (cleanStep true) []) := by
    simp only [clean, h, if_true]
  rw [hcp]
  have hro : isRooted (sep :: joinComps ((goComps p).foldl (cleanStep true) [])) = true := by
    simp [isRooted]
  simp only [clean, hro, if_true]
  rw [goComps_sep_cons, goComps_joinComps _ hgood,
    foldl_cleanStep_of_no_dotdot true _ [] hnd]
  simp

theorem goJoin_nil_right {base : Str} (hb : base ≠ []) : goJoin base [] = clean base := by
  unfold goJoin; rw [if_neg hb, if_pos rfl]

theorem clean_append_dot {base : Str} (hb : base ≠ []) :
    clean (base ++ sep :: ['.']) = clean base := by
  have hcomps : goComps (base ++ sep :: ['.']) = goComps base := by
    rw [goComps_append]
    have : goComps ['.'] = [] := by decide
    rw [this, List.append_nil]
  have hroot : isRooted (base ++ sep :: ['.']) = isRooted base := by
    cases base with
    | nil => exact absurd rfl hb
    | cons c t => rfl
  unfold clean
  rw [hcomps, hroot]

theorem goJoin_dot {base : Str} (hb : base ≠ []) :
    goJoin base ['.'] = clean base := by
  unfold goJoin
  rw [if_neg hb, if_neg (by decide : ¬(['.'] : Str) = [])]
  exact clean_append_dot hb

theorem withSep_prefix_self (b : Str) : withSep b <+: b ++ [sep] := by
  unfold withSep
  split
  · exact List.prefix_append b [sep]
  · exact List.prefix_refl _

theorem AbsPath_empty {cwd base : Str} (hb : isRooted base = true) :
    AbsPath cwd base [] = some (clean base) := by
  have hbne : base ≠ [] := fun e => by rw [e] at hb; exact absurd hb (by decide)
  simp only [AbsPath]
  rw [goJoin_nil_right hbne, goAbs_of_rooted cwd hb,
      goAbs_of_rooted cwd (clean_rooted hb), clean_idem_of_rooted hb,
      if_pos (withSep_prefix_self (clean base))]

theorem AbsPath_dot {cwd base : Str} (hb : isRooted base = true) :
    AbsPath cwd base ['.'] = some (clean base) := by
  have hbne : base ≠ [] := fun e => by rw [e] at hb; exact absurd hb (by decide)
  simp only [AbsPath]
  rw [goJoin_dot hbne, goAbs_of_rooted cwd hb,
      goAbs_of_rooted cwd (clean_rooted hb), clean_idem_of_rooted hb,
      if_pos (withSep_prefix_self (clean base))]

theorem hexVal_isSome (c : Char) : (hexVal c).isSome = isHexDigit c := by
  unfold hexVal isHexDigit
  by_cases h1 : '0' ≤ c ∧ c ≤ '9' <;> by_cases h2 : 'a' ≤ c ∧ c ≤ 'f' <;>
    by_cases h3 : 'A' ≤ c ∧ c ≤ 'F' <;> simp [h1, h2, h3]

theorem hexDecode_cons2 (a b : Char) (rest : Str) :
    (hexDecode (a :: b :: rest)).isSome
      = ((hexVal a).isSome && ((hexVal b).isSome && (hexDecode rest).isSome)) := by
  cases ha : hexVal a <;> cases hb : hexVal b <;> cases hd : hexDecode rest <;>
    simp [hexDecode, ha, hb, hd]

theorem hexDecode_isSome_fuel : ∀ (n : Nat) (s : Str), s.length ≤ n →
    ((hexDecode s).isSome = true ↔
      s.length % 2 = 0 ∧ ∀ c ∈ s, isHexDigit c = true) := by
  intro n
  induction n with
  | zero =>
    intro s hs
    have : s = [] := List.length_eq_zero.mp (Nat.le_zero.mp hs)
    subst this
    simp [hexDecode]
  | succ n ih =>
    intro s hs
    match s with
    | [] => simp [hexDecode]
    | [a] => simp [hexDecode]
    | a :: b :: rest =>
      have hlen : rest.length ≤ n := by simp at hs; omega
      have hr := ih rest hlen
      rw [hexDecode_cons2, hexVal_isSome, hexVal_isSome]
      constructor
      · intro h
        rw [Bool.and_eq_true, Bool.and_eq_true] at h
        obtain ⟨hA, hB, hD⟩ := h
        have hrest := hr.mp hD
        refine ⟨by simp; omega, ?_⟩
        intro c hc
        rcases List.mem_cons.mp hc with rfl | hc
        · exact hA
        rcases List.mem_cons.mp hc with rfl | hc
        · exact hB
        · exact hrest.2 c hc
      · rintro ⟨hlen2, hall⟩
        rw [Bool.and_eq_true, Bool.and_eq_true]
        refine ⟨hall a (by simp), hall b (by simp),
          hr.mpr ⟨?_, fun c hc => hall c (by simp [hc])⟩⟩
        simp at hlen2; omega

theorem hexDecode_isSome (s : Str) :
    (hexDecode s).isSome = true ↔
      s.length % 2 = 0 ∧ ∀ c ∈ s, isHexDigit c = true :=
  hexDecode_isSome_fuel s.length s (Nat.le_refl _)

theorem IsValidObjectId_iff (s : Str) :
    IsValidObjectId s = true ↔ s.length = 24 ∧ ∀ c ∈ s, isHexDigit c = true := by
  unfold IsValidObjectId
  rw [Bool.and_eq_true, decide_eq_true_eq]
  constructor
  · rintro ⟨h1, h2⟩
    exact ⟨h1, ((hexDecode_isSome s).mp h2).2⟩
  · rintro ⟨h1, h2⟩
    exact ⟨h1, (hexDecode_isSome s).mpr ⟨by omega, h2⟩⟩

example : clean (str "/data/images/../../etc/passwd") = str "/etc/passwd" := by decide

example : clean (str "/data/images/a/b/../c") = str "/data/images/a/c" := by decide

example : clean (str "") = str "." := by decide

example : clean (str "a/../..") = str ".." := by decide

example : clean (str "/..") = str "/" := by decide

example : clean (str "subdir//test.txt") = str "subdir/test.txt" := by decide

example : AbsPath (str "/") (str "/data/images") (str "../../etc/passwd") = none := by decide

example : AbsPath (str "/") (str "/data/images") (str "a/b/../c")
    = some (str "/data/images/a/c") := by decide

example : AbsPath (str "/") (str "/data/images") (str "../images-evil/x") = none := by decide

example : AbsPath (str "/") (str "/data/images") (str "") = some (str "/data/images") := by decide

example : AbsPath (str "/") (str "/data/images") (str ".") = some (str "/data/images") := by decide

example : AbsPath (str "/") (str "/data/images") (str "/etc/passwd")
    = some (str "/data/images/etc/passwd") := by decide

example : IsValidObjectId (str "507f1f77bcf86cd799439011") = true := by decide

example : IsValidObjectId (str "507F1F77BCF86CD799439011") = true := by decide

example : IsValidObjectId (str "507f1f77bcf86cd79943901g") = false := by decide

example : IsValidObjectId (str "507f1f77bcf86cd79943901") = false := by decide

example : IsValidObjectId (str "507f1f77bcf86cd7994390111") = false := by decide

theorem cleanEmptyDirs_nil : cleanEmptyDirs [] = [] := by simp [cleanEmptyDirs]

theorem cleanEmptyDirs_cons_file (n : Str) (rest : List (Str × Node)) :
    cleanEmptyDirs ((n, Node.file) :: rest) = (n, Node.file) :: cleanEmptyDirs rest := by
  simp [cleanEmptyDirs]

theorem cleanEmptyDirs_cons_dir (n : Str) (cs rest : List (Str × Node)) :
    cleanEmptyDirs ((n, Node.dir cs) :: rest)
      = if (cleanEmptyDirs cs).isEmpty then cleanEmptyDirs rest
        else (n, Node.dir (cleanEmptyDirs cs)) :: cleanEmptyDirs rest := by
  simp only [cleanEmptyDirs]

theorem cleanEmptyDirs_idem : ∀ cs : List (Str × Node),
    cleanEmptyDirs (cleanEmptyDirs cs) = cleanEmptyDirs cs := by
  intro cs
  induction cs using cleanEmptyDirs.induct with
  | case1 => simp [cleanEmptyDirs_nil]
  | case2 n rest ih => simp [cleanEmptyDirs_cons_file, ih]
  | case3 n cs rest cs' hempty ihcs ihrest =>
    rw [cleanEmptyDirs_cons_dir, if_pos hempty, ihrest]
  | case4 n cs rest cs' hempty ihcs ihrest =>
    rw [cleanEmptyDirs_cons_dir, if_neg hempty, cleanEmptyDirs_cons_dir, ihcs,
      if_neg hempty, ihrest]

theorem filesOf_cleanEmptyDirs : ∀ cs : List (Str × Node),
    filesOf (cleanEmptyDirs cs) = filesOf cs := by
  intro cs
  induction cs using cleanEmptyDirs.induct with
  | case1 => rw [cleanEmptyDirs_nil]
  | case2 n rest ih => rw [cleanEmptyDirs_cons_file]; simp [filesOf, ih]
  | case3 n cs rest cs' hempty ihcs ihrest =>
    have hnil : cleanEmptyDirs cs = [] := by simpa using hempty
    have h0 : filesOf cs = [] := by rw [← ihcs, hnil]; simp [filesOf]
    rw [cleanEmptyDirs_cons_dir, if_pos hempty, ihrest]
    simp [filesOf, h0]
  | case4 n cs rest cs' hempty ihcs ihrest =>
    rw [cleanEmptyDirs_cons_dir, if_neg hempty]
    simp [filesOf, ihcs, ihrest]

theorem cleanEmptyDirs_eq_nil_iff : ∀ cs : List (Str × Node),
    cleanEmptyDirs cs = [] ↔ filesOf cs = [] := by
  intro cs
  induction cs using cleanEmptyDirs.induct with
  | case1 => simp [cleanEmptyDirs_nil, filesOf]
  | case2 n rest ih => simp [cleanEmptyDirs_cons_file, filesOf]
  | case3 n cs rest cs' hempty ihcs ihrest =>
    have hnil : cleanEmptyDirs cs = [] := by simpa using hempty
    have h0 : filesOf cs = [] := ihcs.mp hnil
    rw [cleanEmptyDirs_cons_dir, if_pos hempty]
    simp [filesOf, h0, ihrest]
  | case4 n cs rest cs' hempty ihcs ihrest =>
    have hne : ¬ cleanEmptyDirs cs = [] := by
      intro e
      exact hempty (by simp [show cs' = cleanEmptyDirs cs from rfl, e])
    have hfne : ¬ filesOf cs = [] := fun e => hne (ihcs.mpr e)
    rw [cleanEmptyDirs_cons_dir, if_neg hempty]
    simp [filesOf, hfne]

theorem AbsPath_rooted_eval {base : Str} (cwd cwd2 path : Str) (hb : isRooted base = true) :
    AbsPath cwd base path = AbsPath cwd2 base path := by
  simp only [AbsPath]
  rw [goAbs_of_rooted cwd hb, goAbs_of_rooted cwd2 hb,
    goAbs_of_rooted cwd (goJoin_rooted path hb), goAbs_of_rooted cwd2 (goJoin_rooted path hb)]

/-- C1: for every base and caller-supplied path, `AbsPath` either fails or
returns an absolute path confined under the canonicalized base (which is
then a string prefix of the result); concretely,
`AbsPath("/data/images", "../../etc/passwd")` fails and
`AbsPath("/data/images", "a/b/../c")` returns `/data/images/a/c`. -/
theorem C1_pathguard_confinement :
    (∀ cwd base path r, isRooted cwd = true → AbsPath cwd base path = some r →
        isRooted r = true ∧ goAbs cwd base <+: r ∧ withinBase (goAbs cwd base) r)
    ∧ (∀ cwd, AbsPath cwd (str "/data/images") (str "../../etc/passwd") = none)
    ∧ (∀ cwd, AbsPath cwd (str "/data/images") (str "a/b/../c")
        = some (str "/data/images/a/c")) := by
  refine ⟨?_, ?_, ?_⟩
  · intro cwd base path r hc h
    obtain ⟨hr, _, hw⟩ := AbsPath_some_spec hc h
    exact ⟨hr, withinBase_isPrefix hw, hw⟩
  · intro cwd
    rw [AbsPath_rooted_eval cwd (str "/") _ (by decide)]
    decide
  · intro cwd
    rw [AbsPath_rooted_eval cwd (str "/") _ (by decide)]
    decide

theorem C1_pathguard_confinement_witness :
    (isRooted (str "/data/images/a/c") = true
      ∧ goAbs (str "/") (str "/data/images") <+: str "/data/images/a/c"
      ∧ withinBase (goAbs (str "/") (str "/data/images")) (str "/data/images/a/c"))
    ∧ AbsPath (str "/") (str "/data/images") (str "../../etc/passwd") = none
    ∧ AbsPath (str "/") (str "/data/images") (str "a/b/../c")
        = some (str "/data/images/a/c") :=
  ⟨C1_pathguard_confinement.1 (str "/") (str "/data/images") (str "a/b/../c")
      (str "/data/images/a/c") (by decide) (by decide),
    C1_pathguard_confinement.2.1 (str "/"),
    C1_pathguard_confinement.2.2 (str "/")⟩

/-- C2: a canonical join that merely shares the base's string prefix
without being properly inside it (equal to the canonical base, or extending
it past a separator) is always rejected; concretely, `/data/images-evil/x`
shares the string prefix `/data/images` but
`AbsPath("/data/images", "../images-evil/x")` fails. -/
theorem C2_sibling_rejection :
    (∀ cwd base path, isRooted cwd = true →
        ¬ withinBase (goAbs cwd base) (goAbs cwd (goJoin base path)) →
        AbsPath cwd base path = none)
    ∧ goJoin (str "/data/images") (str "../images-evil/x") = str "/data/images-evil/x"
    ∧ (str "/data/images") <+: str "/data/images-evil/x"
    ∧ ¬ withinBase (str "/data/images") (str "/data/images-evil/x")
    ∧ (∀ cwd, AbsPath cwd (str "/data/images") (str "../images-evil/x") = none) := by
  refine ⟨?_, by decide, by decide, by decide, ?_⟩
  · intro cwd base path hc h
    exact AbsPath_not_within hc h
  · intro cwd
    rw [AbsPath_rooted_eval cwd (str "/") _ (by decide)]
    decide

theorem C2_sibling_rejection_witness :
    AbsPath (str "/") (str "/data/images") (str "../images-evil/x") = none :=
  C2_sibling_rejection.1 (str "/") (str "/data/images") (str "../images-evil/x")
    (by decide) (by decide)

/-- C3: the claim says a single-delete whose resolved path is an existing
directory must fail with an is-directory error and remove nothing.  The
code has no directory check: on an existing *empty* directory, `os.Remove`
succeeds, so the handler removes the directory and reports success.  Here
the images tree holds one empty directory `a`; the delete request for `a`
resolves to it (an existing directory), removes it, and returns ok. -/
theorem C3_single_delete_removes_empty_directory :
    lookupNode (Node.dir [(str "img", Node.dir [(str "a", Node.dir [])])])
        (pathComps (str "/img/a")) = some (Node.dir [])
    ∧ handleSingleDelete (str "/")
        (Node.dir [(str "img", Node.dir [(str "a", Node.dir [])])])
        (str "/img") (str "/a")
      = (Node.dir [(str "img", Node.dir [])], DelOutcome.ok) := by
  refine ⟨rfl, ?_⟩
  simp only [handleSingleDelete]
  have h1 : trimLeadSep (str "/a") = str "a" := by decide
  rw [h1]
  have h2 : AbsPath (str "/") (str "/img") (str "a") = some (str "/img/a") := by decide
  rw [h2]
  dsimp only
  have h3 : pathComps (str "/img/a") = [str "img", str "a"] := by decide
  rw [h3]
  have h4 : lookupNode (Node.dir [(str "img", Node.dir [(str "a", Node.dir [])])])
      [str "img", str "a"] = some (Node.dir []) := rfl
  rw [h4]
  simp only [Option.isSome_some]
  rw [if_neg (by decide : ¬(true = false))]
  have h5 : osRemove (Node.dir [(str "img", Node.dir [(str "a", Node.dir [])])])
      [str "img", str "a"] = some (Node.dir [(str "img", Node.dir [])]) := by
    simp [osRemove, findEntry, eraseEntry, replaceEntry, str]
  rw [h5]
  dsimp only
  have h6 : pathComps (goAbs (str "/") (str "/img")) = [str "img"] := by decide
  rw [h6]
  have h7 : cleanAt (Node.dir [(str "img", Node.dir [])]) [str "img"]
      = some (Node.dir [(str "img", Node.dir [])]) := by
    simp [cleanAt, findEntry, cleanEmptyDirs_nil, replaceEntry]
  rw [h7]

/-- C4 counterexample: the claim says that whenever `SaveWebP` fails —
including on a decode error — no file exists at the destination afterward.
But the source calls `os.Create` before decoding and never removes the
created file on failure: decoding unrecognizable bytes `[0]` fails, yet an
empty file is left at the destination. -/
theorem C4_counterexample_decode_error_leaves_file :
    (SaveWebP specDecode specEncode fsEmpty [0] (str "/img/a.webp") 90).2
        = some SaveErr.decodeError
    ∧ (SaveWebP specDecode specEncode fsEmpty [0] (str "/img/a.webp") 90).1
        (str "/img/a.webp") = some (Entry.file []) :=
  ⟨rfl, rfl⟩

/-- C4 amended: if the destination already exists, `SaveWebP` fails and the
filesystem is unchanged; otherwise (destination free, directory chain
creatable) a decode failure returns an error but leaves the newly created
file at the destination, a decode success followed by an encode failure
likewise returns an error with the created file (not the full encoded
content) still present, and only when both the decode and the encode
succeed does the call succeed, with the destination then holding exactly
the encoded bytes. -/
theorem C4_amended_save_failure_states
    (decode : List Nat → Option (List Nat)) (encode : List Nat → Nat → Option (List Nat))
    (fs : FS) (data : List Nat) (dest : Str) (q : Nat) :
    ((fs dest).isSome = true →
        SaveWebP decode encode fs data dest q = (fs, some SaveErr.alreadyExists))
    ∧ (∀ fs1, fs dest = none → mkdirAll fs (dirOf dest) = some fs1 → fs1 dest = none →
        (decode data = none →
          SaveWebP decode encode fs data dest q
            = (fsSet fs1 dest (Entry.file []), some SaveErr.decodeError))
        ∧ (∀ img, decode data = some img → encode img q = none →
          SaveWebP decode encode fs data dest q
            = (fsSet fs1 dest (Entry.file []), some SaveErr.encodeError))
        ∧ (∀ img out, decode data = some img → encode img q = some out →
          SaveWebP decode encode fs data dest q
            = (fsSet (fsSet fs1 dest (Entry.file [])) dest (Entry.file out),
                none))) := by
  constructor
  · intro h
    simp only [SaveWebP, PathExists, h, if_true]
  · intro fs1 hfree hmk hfs1
    have hnotex : PathExists fs dest = false := by
      simp [PathExists, hfree]
    have hcreate : createFile fs1 dest = some (fsSet fs1 dest (Entry.file [])) := by
      simp only [createFile, hfs1]
    refine ⟨?_, ?_, ?_⟩
    · intro hdec
      simp only [SaveWebP, hnotex, Bool.false_eq_true, if_false, hmk, hcreate, hdec]
    · intro img hdec henc
      simp only [SaveWebP, hnotex, Bool.false_eq_true, if_false, hmk, hcreate, hdec, henc]
    · intro img out hdec henc
      simp only [SaveWebP, hnotex, Bool.false_eq_true, if_false, hmk, hcreate, hdec, henc]

theorem C4_amended_save_failure_states_witness :
    (SaveWebP specDecode specEncode fsEmpty [0] (str "/img/a.webp") 90
      = (fsSet (fsSet fsEmpty (str "/img") Entry.dir) (str "/img/a.webp") (Entry.file []),
          some SaveErr.decodeError))
    ∧ (SaveWebP specDecode specEncodeFail fsEmpty [255, 216, 5] (str "/img/a.webp") 90
      = (fsSet (fsSet fsEmpty (str "/img") Entry.dir) (str "/img/a.webp") (Entry.file []),
          some SaveErr.encodeError))
    ∧ (SaveWebP specDecode specEncode fsEmpty [255, 216, 5] (str "/img/a.webp") 90
      = (fsSet (fsSet (fsSet fsEmpty (str "/img") Entry.dir) (str "/img/a.webp")
            (Entry.file [])) (str "/img/a.webp") (Entry.file [90, 5]),
          none)) :=
  ⟨((C4_amended_save_failure_states specDecode specEncode fsEmpty [0]
        (str "/img/a.webp") 90).2
      (fsSet fsEmpty (str "/img") Entry.dir) rfl rfl rfl).1 rfl,
    ((C4_amended_save_failure_states specDecode specEncodeFail fsEmpty [255, 216, 5]
        (str "/img/a.webp") 90).2
      (fsSet fsEmpty (str "/img") Entry.dir) rfl rfl rfl).2.1 [5] rfl rfl,
    ((C4_amended_save_failure_states specDecode specEncode fsEmpty [255, 216, 5]
        (str "/img/a.webp") 90).2
      (fsSet fsEmpty (str "/img") Entry.dir) rfl rfl rfl).2.2 [5] [90, 5] rfl rfl⟩

/-- C5: the claim says the relative path of a stored upload is
`<charid>/<24-hex>.webp` — exactly two segments with the character id
first.  `routes.prepImageName` actually joins guild, user, charid, and the
generated name: four segments with the guild first, as evaluated here on
the repository's own test request (guild 123, user 456). -/
theorem C5_upload_path_has_four_segments :
    prepImageName (str "68f5ce16713c155df96639bc")
        ⟨123, 456, str "507f1f77bcf86cd799439011", str "https://example.com/a.jpg"⟩
      = some (str "123/456/507f1f77bcf86cd799439011/68f5ce16713c155df96639bc.webp")
    ∧ (splitAux (str "123/456/507f1f77bcf86cd799439011/68f5ce16713c155df96639bc.webp")
        []).length = 4
    ∧ (splitAux (str "123/456/507f1f77bcf86cd799439011/68f5ce16713c155df96639bc.webp")
        []).head? = some (str "123") := by
  refine ⟨by decide, by decide, by decide⟩

/-- C6: writing to an occupied destination always fails with the
already-exists error and leaves the filesystem — in particular the
existing file's bytes — unchanged. -/
theorem C6_write_once (decode : List Nat → Option (List Nat))
    (encode : List Nat → Nat → Option (List Nat))
    (fs : FS) (data : List Nat) (dest : Str) (q : Nat) (bytes : List Nat)
    (h : fs dest = some (Entry.file bytes)) :
    SaveWebP decode encode fs data dest q = (fs, some SaveErr.alreadyExists)
    ∧ (SaveWebP decode encode fs data dest q).1 dest = some (Entry.file bytes) := by
  have hex : PathExists fs dest = true := by simp [PathExists, h]
  constructor
  · simp only [SaveWebP, hex, if_true]
  · simp only [SaveWebP, hex, if_true]
    exact h

theorem C6_write_once_witness :
    SaveWebP specDecode specEncode (fsSet fsEmpty (str "/img/a.webp") (Entry.file [7]))
        [255, 216, 5] (str "/img/a.webp") 90
      = (fsSet fsEmpty (str "/img/a.webp") (Entry.file [7]), some SaveErr.alreadyExists)
    ∧ (SaveWebP specDecode specEncode (fsSet fsEmpty (str "/img/a.webp") (Entry.file [7]))
        [255, 216, 5] (str "/img/a.webp") 90).1 (str "/img/a.webp")
      = some (Entry.file [7]) :=
  C6_write_once specDecode specEncode _ [255, 216, 5] (str "/img/a.webp") 90 [7] rfl

/-- C7: the identifier validator accepts exactly the 24-character
hexadecimal strings (either case): the general characterization, the two
concrete examples from the spec, uppercase acceptance, and rejection of
lengths 23 and 25. -/
theorem C7_objectid_validator :
    (∀ s : Str, IsValidObjectId s = true ↔
        s.length = 24 ∧ ∀ c ∈ s, isHexDigit c = true)
    ∧ IsValidObjectId (str "507f1f77bcf86cd799439011") = true
    ∧ IsValidObjectId (str "507F1F77BCF86CD799439011") = true
    ∧ IsValidObjectId (str "507f1f77bcf86cd79943901g") = false
    ∧ (∀ s : Str, s.length = 23 ∨ s.length = 25 → IsValidObjectId s = false) := by
  refine ⟨IsValidObjectId_iff, by decide, by decide, by decide, ?_⟩
  intro s h
  by_contra hne
  have ht : IsValidObjectId s = true := by
    cases hv : IsValidObjectId s
    · exact absurd hv hne
    · rfl
  have := ((IsValidObjectId_iff s).mp ht).1
  rcases h with h | h <;> omega

theorem C7_objectid_validator_witness :
    IsValidObjectId (str "507f1f77bcf86cd79943901") = false
    ∧ IsValidObjectId (str "507f1f77bcf86cd7994390112") = false :=
  ⟨C7_objectid_validator.2.2.2.2 (str "507f1f77bcf86cd79943901") (Or.inl (by decide)),
    C7_objectid_validator.2.2.2.2 (str "507f1f77bcf86cd7994390112") (Or.inr (by decide))⟩

/-- C8: when the source URL fails to parse, has a scheme other than
exactly `http`/`https`, or has an empty host, the upload handler aborts
with the invalid-URL error and the fetched-URL log stays empty — no
network call is issued; in particular `ftp://example.com/x.jpg` (whose
parse yields scheme `ftp`) is rejected without a fetch. -/
theorem C8_invalid_url_no_fetch :
    (∀ parse fetch decode encode (newId : Str) (fs : FS) (imagesDir baseURL : Str)
        (req : UploadRequest), IsValidURL parse req.imageURL = false →
        handleImageUpload parse fetch decode encode newId fs imagesDir baseURL req
          = ([], fs, UploadOutcome.invalidURL))
    ∧ (∀ parse (s : Str), parse s = none → IsValidURL parse s = false)
    ∧ (∀ parse (s : Str) (u : UrlParts), parse s = some u →
        ¬ u.scheme = str "http" → ¬ u.scheme = str "https" →
        IsValidURL parse s = false)
    ∧ (∀ parse (s : Str) (u : UrlParts), parse s = some u → u.host = [] →
        IsValidURL parse s = false)
    ∧ (∀ parse fetch decode encode (newId : Str) (fs : FS) (imagesDir baseURL : Str)
        (req : UploadRequest), req.imageURL = str "ftp://example.com/x.jpg" →
        parse (str "ftp://example.com/x.jpg")
          = some ⟨str "ftp", str "example.com"⟩ →
        handleImageUpload parse fetch decode encode newId fs imagesDir baseURL req
          = ([], fs, UploadOutcome.invalidURL)) := by
  have habort : ∀ parse fetch decode encode (newId : Str) (fs : FS)
      (imagesDir baseURL : Str) (req : UploadRequest),
      IsValidURL parse req.imageURL = false →
      handleImageUpload parse fetch decode encode newId fs imagesDir baseURL req
        = ([], fs, UploadOutcome.invalidURL) := by
    intro parse fetch decode encode newId fs imagesDir baseURL req h
    simp only [handleImageUpload, h, if_pos]
  refine ⟨habort, ?_, ?_, ?_, ?_⟩
  · intro parse s h
    simp only [IsValidURL, h]
  · intro parse s u hp h1 h2
    simp [IsValidURL, hp, h1, h2]
  · intro parse s u hp h
    simp [IsValidURL, hp, h]
  · intro parse fetch decode encode newId fs imagesDir baseURL req hurl hp
    refine habort parse fetch decode encode newId fs imagesDir baseURL req ?_
    rw [hurl]
    simp only [IsValidURL, hp]
    decide

theorem C8_invalid_url_no_fetch_witness :
    handleImageUpload parseFtpOnly (fun _ => none) specDecode specEncode
        (str "68f5ce16713c155df96639bc") fsEmpty (str "/img") (str "https://cdn.example.com")
        ⟨123, 456, str "507f1f77bcf86cd799439011", str "ftp://example.com/x.jpg"⟩
      = ([], fsEmpty, UploadOutcome.invalidURL) := by
  have hp : parseFtpOnly (str "ftp://example.com/x.jpg")
      = some ⟨str "ftp", str "example.com"⟩ := by
    unfold parseFtpOnly
    rw [if_pos rfl]
  exact C8_invalid_url_no_fetch.2.2.2.2 parseFtpOnly (fun _ => none) specDecode specEncode
    (str "68f5ce16713c155df96639bc") fsEmpty (str "/img") (str "https://cdn.example.com")
    ⟨123, 456, str "507f1f77bcf86cd799439011", str "ftp://example.com/x.jpg"⟩ rfl hp

/-- C9: the pruning pass is idempotent; the base directory is never
removed (pruning a directory always yields a directory, even when all of
its entries go away); no file is ever removed (the set of file paths is
preserved exactly); and an entry list prunes to nothing precisely when it
contains no files — only (recursively) empty directories are removed. -/
theorem C9_prune_idempotent_and_safe :
    (∀ cs : List (Str × Node), cleanEmptyDirs (cleanEmptyDirs cs) = cleanEmptyDirs cs)
    ∧ (∀ cs : List (Str × Node),
        cleanAt (Node.dir cs) [] = some (Node.dir (cleanEmptyDirs cs)))
    ∧ (∀ cs : List (Str × Node), filesOf (cleanEmptyDirs cs) = filesOf cs)
    ∧ (∀ cs : List (Str × Node), cleanEmptyDirs cs = [] ↔ filesOf cs = []) :=
  ⟨cleanEmptyDirs_idem, fun _ => rfl, filesOf_cleanEmptyDirs, cleanEmptyDirs_eq_nil_iff⟩

/-- C10: a path that canonicalizes to the base itself (the empty path, or
`.`) passes the confinement check and resolves to the canonicalized base;
consequently a single-delete request addressing the storage root proceeds
to the existence check and the removal attempt — here the empty storage
root `/img` itself is removed and the handler reports success. -/
theorem C10_root_confined_in_itself :
    (∀ cwd base : Str, isRooted base = true →
        AbsPath cwd base [] = some (clean base)
        ∧ AbsPath cwd base (str ".") = some (clean base))
    ∧ handleSingleDelete (str "/") (Node.dir [(str "img", Node.dir [])])
        (str "/img") (str "/")
      = (Node.dir [], DelOutcome.ok) := by
  constructor
  · intro cwd base hb
    exact ⟨AbsPath_empty hb, AbsPath_dot hb⟩
  · simp only [handleSingleDelete]
    have h1 : trimLeadSep (str "/") = [] := by decide
    rw [h1]
    have h2 : AbsPath (str "/") (str "/img") [] = some (str "/img") := by decide
    rw [h2]
    dsimp only
    have h3 : pathComps (str "/img") = [str "img"] := by decide
    rw [h3]
    have h4 : lookupNode (Node.dir [(str "img", Node.dir [])]) [str "img"]
        = some (Node.dir []) := rfl
    rw [h4]
    simp only [Option.isSome_some]
    rw [if_neg (by decide : ¬(true = false))]
    have h5 : osRemove (Node.dir [(str "img", Node.dir [])]) [str "img"]
        = some (Node.dir []) := by
      simp [osRemove, findEntry, eraseEntry, str]
    rw [h5]
    dsimp only
    have h6 : pathComps (goAbs (str "/") (str "/img")) = [str "img"] := by decide
    rw [h6]
    have h7 : cleanAt (Node.dir []) [str "img"] = none := by
      simp [cleanAt, findEntry]
    rw [h7]

theorem C10_root_confined_in_itself_witness :
    AbsPath (str "/") (str "/img") [] = some (clean (str "/img"))
    ∧ AbsPath (str "/") (str "/img") (str ".") = some (clean (str "/img")) :=
  C10_root_confined_in_itself.1 (str "/") (str "/img") (by decide)
